import Mathlib

/-!
Shallow embedding of the loan interest calculator (`src/main.rs`).

Modelling conventions:
* `chrono::NaiveDate` is modelled as `Int`, a count of days since an epoch;
  `end.signed_duration_since(start).num_days()` is then `end - start`, and
  `date + Duration::days(d)` is `date + d`.  (Date arithmetic in `chrono`
  is exact whole-day arithmetic, so this is faithful.)
* `f64` amounts and rates are modelled as `Rat`, reading the decimal
  literals of the program at their intended exact values.
* `BTreeMap` is modelled as an association list with strictly increasing
  keys; `btmInsert` keeps the list sorted and replaces an existing binding,
  matching `BTreeMap::insert`.  The representation invariant of a real
  `BTreeMap` is `sortedKeys`.
* `u32` loan identifiers are modelled as `Nat`.
-/

/-- Model of `BTreeMap::insert`: place the binding at its sorted position,
replacing an existing binding for an equal key. -/
def btmInsert {κ α : Type} [LinearOrder κ] (k : κ) (v : α) :
    List (κ × α) → List (κ × α)
  | [] => [(k, v)]
  | (k', v') :: rest =>
    if k < k' then (k, v) :: (k', v') :: rest
    else if k = k' then (k, v) :: rest
    else (k', v') :: btmInsert k v rest

/-- Model of `BTreeMap::get`: first binding with the given key. -/
def btmLookup {κ α : Type} [DecidableEq κ] (k : κ) : List (κ × α) → Option α
  | [] => none
  | (k', v) :: rest => if k = k' then some v else btmLookup k rest

/-- Model of `BTreeMap::contains_key`. -/
def btmContains {κ α : Type} [DecidableEq κ] (k : κ) (l : List (κ × α)) : Bool :=
  (btmLookup k l).isSome

/-- Model of `get_mut` followed by an in-place mutation `f` of the value. -/
def btmAdjust {κ α : Type} [DecidableEq κ] (k : κ) (f : α → α) :
    List (κ × α) → List (κ × α)
  | [] => []
  | (k', v) :: rest =>
    if k = k' then (k', f v) :: rest else (k', v) :: btmAdjust k f rest

/-- Number of bindings carrying the key `k`. -/
def countKey {κ α : Type} [DecidableEq κ] (k : κ) (l : List (κ × α)) : Nat :=
  (l.filter (fun p => p.1 = k)).length

/-- Representation invariant of a `BTreeMap`: keys strictly increase. -/
def sortedKeys {κ α : Type} [LinearOrder κ] (l : List (κ × α)) : Prop :=
  List.Pairwise (fun p q => p.1 < q.1) l

/-- `Daily_Information` from `src/main.rs`. -/
structure Daily_Information where
  day_interest : Rat
  day_interest_no_margin : Rat
  days_elapsed : Int
deriving DecidableEq

/-- `Loan` from `src/main.rs`. -/
@[ext]
structure Loan where
  start_date : Int
  end_date : Int
  loan_amount : Rat
  loan_currency : String
  base_interest_rate : Rat
  margin : Rat
  total_interest : Rat
  daily_information : List (Int × Daily_Information)
deriving DecidableEq

/-- `Loan::new` (defaults: 2020-01-01 = day 18262, 2020-01-05 = day 18266). -/
def Loan.new : Loan :=
  { loan_amount := 1000
    start_date := 18262
    end_date := 18266
    loan_currency := "USD"
    base_interest_rate := 5 / 100
    margin := 1 / 100
    total_interest := 0
    daily_information := [] }

/-- `Loan::calculate_interest`.  The Rust loop `for day in 1..days+1` runs
`days` times when `days >= 1` and not at all otherwise, which is
`List.range days.toNat` with `day = i + 1`. -/
def calculate_interest (self : Loan) : Loan :=
  let days : Int := self.end_date - self.start_date
  let total_interest_rate := self.base_interest_rate + self.margin
  let daily_interest_rate_no_margin := self.base_interest_rate / 365
  let daily_interest_rate := total_interest_rate / 365
  let daily_information :=
    (List.range days.toNat).foldl
      (fun m i =>
        let day : Int := (i : Int) + 1
        let current_date := self.start_date + day
        let daily_interest_amount_no_margin :=
          self.loan_amount * daily_interest_rate_no_margin
        let daily_interest_amount := self.loan_amount * daily_interest_rate
        btmInsert current_date
          { day_interest := daily_interest_amount
            day_interest_no_margin := daily_interest_amount_no_margin
            days_elapsed := day } m)
      self.daily_information
  { self with
    daily_information := daily_information
    total_interest := self.loan_amount * daily_interest_rate * (days : Rat) }

/-- `LoanCalculator` from `src/main.rs`. -/
structure LoanCalculator where
  loans : List (Nat × Loan)
  next_loan_id : Nat
deriving DecidableEq

/-- `LoanCalculator::new`. -/
def LoanCalculator.new : LoanCalculator :=
  { loans := [], next_loan_id := 1 }

/-- `LoanCalculator::add_loan`: insert under `next_loan_id`, bump the
counter, return the identifier. -/
def LoanCalculator.add_loan (c : LoanCalculator) (loan : Loan) :
    LoanCalculator × Nat :=
  let loan_id := c.next_loan_id
  ({ loans := btmInsert loan_id loan c.loans, next_loan_id := c.next_loan_id + 1 },
   loan_id)

/-- `LoanCalculator::update_loan`: replace the stored loan when the
identifier is present, otherwise report the error and change nothing. -/
def LoanCalculator.update_loan (c : LoanCalculator) (loan_id : Nat)
    (updated_loan : Loan) : LoanCalculator × Except String Unit :=
  if btmContains loan_id c.loans then
    ({ c with loans := btmInsert loan_id updated_loan c.loans }, Except.ok ())
  else
    (c, Except.error "Loan not found.")

/-- The already-parsed console input consumed by `update_loan_parameters`:
dates as day numbers, rates still in percent form. -/
structure LoanInput where
  start_date : Int
  end_date : Int
  loan_amount : Rat
  loan_currency : String
  base_interest_rate_percent : Rat
  margin_percent : Rat
deriving DecidableEq

/-- `update_loan_parameters`: overwrite the six parameter fields from the
parsed input, dividing the two rates by 100. -/
def update_loan_parameters (loan : Loan) (inp : LoanInput) : Loan :=
  { loan with
    start_date := inp.start_date
    end_date := inp.end_date
    loan_amount := inp.loan_amount
    loan_currency := inp.loan_currency
    base_interest_rate := inp.base_interest_rate_percent / 100
    margin := inp.margin_percent / 100 }

/-- The CLI `update_loan` flow (free function in `src/main.rs`): clone the
stored loan, reset its derived fields, read new parameters, store the
result via `LoanCalculator::update_loan`, then recompute interest on the
stored record. -/
def update_loan_flow (c : LoanCalculator) (loan_id : Nat) (inp : LoanInput) :
    LoanCalculator × Except String Unit :=
  match btmLookup loan_id c.loans with
  | some loan0 =>
    let loan1 : Loan := { loan0 with total_interest := 0, daily_information := [] }
    let loan2 := update_loan_parameters loan1 inp
    let step := c.update_loan loan_id loan2
    match step.2 with
    | Except.ok _ =>
      ({ step.1 with loans := btmAdjust loan_id calculate_interest step.1.loans },
       Except.ok ())
    | Except.error e => (step.1, Except.error e)
  | none => (c, Except.error "Loan not found.")

/-- The CLI `add_loan` flow: `add_loan` then `calculate_interest` on the
freshly stored record. -/
def add_loan_flow (c : LoanCalculator) (loan : Loan) : LoanCalculator × Nat :=
  let r := c.add_loan loan
  ({ r.1 with loans := btmAdjust r.2 calculate_interest r.1.loans }, r.2)

/-- One registry operation, as issued by the CLI menu. -/
inductive RegOp where
  | addOp : Loan → RegOp
  | updateOp : Nat → Loan → RegOp
  | updateFlowOp : Nat → LoanInput → RegOp
  | getOp : Nat → RegOp
  | listOp : RegOp

/-- Apply one operation; creations return the allocated identifier. -/
def applyOp (c : LoanCalculator) : RegOp → LoanCalculator × Option Nat
  | RegOp.addOp loan => let r := add_loan_flow c loan; (r.1, some r.2)
  | RegOp.updateOp i loan => ((c.update_loan i loan).1, none)
  | RegOp.updateFlowOp i inp => ((update_loan_flow c i inp).1, none)
  | RegOp.getOp _ => (c, none)
  | RegOp.listOp => (c, none)

/-- Run a sequence of operations, collecting the identifiers returned by
the creations in order. -/
def runOps : LoanCalculator → List RegOp → LoanCalculator × List Nat
  | c, [] => (c, [])
  | c, op :: rest =>
    let r := applyOp c op
    let rr := runOps r.1 rest
    (rr.1, (match r.2 with | some i => [i] | none => []) ++ rr.2)

/-- Number of creation operations in a sequence. -/
def countAdds : List RegOp → Nat
  | [] => 0
  | RegOp.addOp _ :: rest => countAdds rest + 1
  | _ :: rest => countAdds rest

/-- Abstract form of the insertion loop in `calculate_interest`: fold
`btmInsert (s + (i+1)) (f (i+1))` over `i = 0, …, n-1` starting from `m0`. -/
def insertSeq {α : Type} (s : Int) (f : Int → α) (n : Nat)
    (m0 : List (Int × α)) : List (Int × α) :=
  (List.range n).foldl
    (fun m i => btmInsert (s + ((i : Int) + 1)) (f ((i : Int) + 1)) m) m0

/-- The `Daily_Information` record built by iteration `d` of the loop in
`calculate_interest`. -/
def dailyOf (l : Loan) (d : Int) : Daily_Information :=
  { day_interest := l.loan_amount * ((l.base_interest_rate + l.margin) / 365)
    day_interest_no_margin := l.loan_amount * (l.base_interest_rate / 365)
    days_elapsed := d }

/-- A loan with `end_date = start_date` whose accrual map still holds a
stale entry, exercising the fact that `calculate_interest` never clears
the map. -/
def exLoanStale : Loan :=
  { start_date := 0
    end_date := 0
    loan_amount := 1000
    loan_currency := "USD"
    base_interest_rate := 5 / 100
    margin := 1 / 100
    total_interest := 0
    daily_information :=
      [(100, { day_interest := 1, day_interest_no_margin := 2, days_elapsed := 3 })] }

/-- A two-day loan carrying a stale accrual entry at day 50, far outside
its date range. -/
def exLoanOutside : Loan :=
  { start_date := 0
    end_date := 2
    loan_amount := 100
    loan_currency := "USD"
    base_interest_rate := 1 / 10
    margin := 1 / 10
    total_interest := 0
    daily_information :=
      [(50, { day_interest := 1, day_interest_no_margin := 2, days_elapsed := 3 })] }

/-- A zero-length loan with an empty accrual map. -/
def exLoanZeroLen : Loan :=
  { start_date := 5
    end_date := 5
    loan_amount := 7
    loan_currency := "EUR"
    base_interest_rate := 1 / 10
    margin := 1 / 50
    total_interest := 9
    daily_information := [] }

/-- A small two-day loan with an empty accrual map. -/
def exLoanTwoDays : Loan :=
  { start_date := 0
    end_date := 2
    loan_amount := 200
    loan_currency := "USD"
    base_interest_rate := 3 / 100
    margin := 2 / 100
    total_interest := 0
    daily_information := [] }

/-- A loan whose `end_date` precedes its `start_date`. -/
def exLoanBackwards : Loan :=
  { start_date := 10
    end_date := 7
    loan_amount := 500
    loan_currency := "USD"
    base_interest_rate := 4 / 100
    margin := 1 / 100
    total_interest := 0
    daily_information := [] }

/-- A four-day loan matching the defaults of `Loan::new` but dated from
day 0, with an empty accrual map. -/
def exLoanFourDays : Loan :=
  { start_date := 0
    end_date := 4
    loan_amount := 1000
    loan_currency := "USD"
    base_interest_rate := 5 / 100
    margin := 1 / 100
    total_interest := 0
    daily_information := [] }

/-- Concrete parsed console input used to exercise the update flow. -/
def exInput : LoanInput :=
  { start_date := 0
    end_date := 2
    loan_amount := 100
    loan_currency := "GBP"
    base_interest_rate_percent := 10
    margin_percent := 5 }

/-- A registry holding exactly one loan under identifier 1. -/
def exCalculator : LoanCalculator :=
  { loans := [(1, Loan.new)], next_loan_id := 2 }

/-- Claim C1: after `calculate_interest`, `total_interest` is the direct
product `principal * (base_rate + margin) / 365 * days` where
`days = end_date - start_date`. -/
theorem calculate_interest_total_formula (l : Loan) :
    (calculate_interest l).total_interest =
      l.loan_amount * (l.base_interest_rate + l.margin) / 365 *
        ((l.end_date - l.start_date : Int) : Rat) := by
  simp only [calculate_interest]
  ring

/-- Claim C9: `calculate_interest` leaves every parameter field of the loan
unchanged; only the derived fields are written. -/
theorem calculate_interest_frame (l : Loan) :
    (calculate_interest l).start_date = l.start_date ∧
    (calculate_interest l).end_date = l.end_date ∧
    (calculate_interest l).loan_amount = l.loan_amount ∧
    (calculate_interest l).loan_currency = l.loan_currency ∧
    (calculate_interest l).base_interest_rate = l.base_interest_rate ∧
    (calculate_interest l).margin = l.margin :=
  ⟨rfl, rfl, rfl, rfl, rfl, rfl⟩

theorem btmLookup_insert_self {κ α : Type} [LinearOrder κ] (k : κ) (v : α)
    (l : List (κ × α)) : btmLookup k (btmInsert k v l) = some v := by
  induction l with
  | nil => simp [btmInsert, btmLookup]
  | cons p rest ih =>
    obtain ⟨k', v'⟩ := p
    by_cases h1 : k < k'
    · simp [btmInsert, h1, btmLookup]
    · by_cases h2 : k = k'
      · simp [btmInsert, h1, h2, btmLookup]
      · simp [btmInsert, h1, h2, btmLookup, ih]

theorem btmLookup_insert_of_ne {κ α : Type} [LinearOrder κ] {k k' : κ} (v : α)
    (l : List (κ × α)) (hne : k ≠ k') :
    btmLookup k (btmInsert k' v l) = btmLookup k l := by
  induction l with
  | nil => simp [btmInsert, btmLookup, hne]
  | cons p rest ih =>
    obtain ⟨k'', v''⟩ := p
    by_cases h1 : k' < k''
    · simp [btmInsert, h1, btmLookup, hne]
    · by_cases h2 : k' = k''
      · subst h2
        simp [btmInsert, h1, btmLookup, hne]
      · by_cases h3 : k = k''
        · simp [btmInsert, h1, h2, btmLookup, h3]
        · simp [btmInsert, h1, h2, btmLookup, h3, ih]

theorem mem_btmInsert {κ α : Type} [LinearOrder κ] {k : κ} {v : α}
    {l : List (κ × α)} {p : κ × α} (hp : p ∈ btmInsert k v l) :
    p = (k, v) ∨ p ∈ l := by
  induction l with
  | nil => simpa [btmInsert] using hp
  | cons q rest ih =>
    obtain ⟨k', v'⟩ := q
    by_cases h1 : k < k'
    · simp only [btmInsert, if_pos h1, List.mem_cons] at hp ⊢
      tauto
    · by_cases h2 : k = k'
      · simp only [btmInsert, if_neg h1, if_pos h2, List.mem_cons] at hp ⊢
        tauto
      · simp only [btmInsert, if_neg h1, if_neg h2, List.mem_cons] at hp
        rcases hp with rfl | hp
        · exact Or.inr (List.mem_cons_self _ _)
        · rcases ih hp with h | h
          · exact Or.inl h
          · exact Or.inr (List.mem_cons_of_mem _ h)

theorem sortedKeys_insert {κ α : Type} [LinearOrder κ] (k : κ) (v : α)
    {l : List (κ × α)} (hl : sortedKeys l) : sortedKeys (btmInsert k v l) := by
  induction l with
  | nil => simp [btmInsert, sortedKeys]
  | cons q rest ih =>
    obtain ⟨k', v'⟩ := q
    rw [sortedKeys, List.pairwise_cons] at hl
    obtain ⟨hhead, htail⟩ := hl
    by_cases h1 : k < k'
    · rw [sortedKeys]
      simp only [btmInsert, if_pos h1]
      rw [List.pairwise_cons]
      constructor
      · intro q hq
        rcases List.mem_cons.mp hq with rfl | hq
        · exact h1
        · exact lt_trans h1 (hhead q hq)
      · rw [List.pairwise_cons]
        exact ⟨hhead, htail⟩
    · by_cases h2 : k = k'
      · rw [sortedKeys]
        simp only [btmInsert, if_neg h1, if_pos h2]
        rw [List.pairwise_cons]
        exact ⟨fun q hq => h2 ▸ hhead q hq, htail⟩
      · rw [sortedKeys]
        simp only [btmInsert, if_neg h1, if_neg h2]
        rw [List.pairwise_cons]
        constructor
        · intro q hq
          rcases mem_btmInsert hq with rfl | hq
          · exact lt_of_le_of_ne (not_lt.mp h1) (Ne.symm h2)
          · exact hhead q hq
        · exact ih htail

theorem btmInsert_of_mem {κ α : Type} [LinearOrder κ] {k : κ} {v : α}
    {l : List (κ × α)} (hl : sortedKeys l) (hmem : (k, v) ∈ l) :
    btmInsert k v l = l := by
  induction l with
  | nil => simp at hmem
  | cons q rest ih =>
    obtain ⟨k', v'⟩ := q
    rw [sortedKeys, List.pairwise_cons] at hl
    obtain ⟨hhead, htail⟩ := hl
    rcases List.mem_cons.mp hmem with heq | hmem'
    · injection heq with h1 h2
      subst h1
      subst h2
      simp [btmInsert]
    · have hlt : k' < k := hhead _ hmem'
      simp only [btmInsert, if_neg (not_lt.mpr hlt.le), if_neg (ne_of_gt hlt)]
      rw [ih htail hmem']

theorem btmLookup_mem {κ α : Type} [DecidableEq κ] {k : κ} {v : α} :
    ∀ {l : List (κ × α)}, btmLookup k l = some v → (k, v) ∈ l := by
  intro l
  induction l with
  | nil => intro h; simp [btmLookup] at h
  | cons p rest ih =>
    obtain ⟨k', v'⟩ := p
    intro h
    by_cases hk : k = k'
    · rw [btmLookup, if_pos hk] at h
      obtain rfl := Option.some.injEq .. ▸ h
      subst hk
      exact List.mem_cons_self _ _
    · rw [btmLookup, if_neg hk] at h
      exact List.mem_cons_of_mem _ (ih h)

theorem countKey_eq_zero {κ α : Type} [DecidableEq κ] {k : κ}
    {l : List (κ × α)} (h : ∀ p ∈ l, p.1 ≠ k) : countKey k l = 0 := by
  induction l with
  | nil => rfl
  | cons p rest ih =>
    have hp : ¬(p.1 = k) := h p (List.mem_cons_self _ _)
    simp only [countKey, List.filter_cons, decide_eq_true_eq]
    rw [if_neg hp]
    exact ih fun q hq => h q (List.mem_cons_of_mem _ hq)

theorem countKey_eq_one {κ α : Type} [LinearOrder κ] {k : κ} {v : α} :
    ∀ {l : List (κ × α)}, sortedKeys l → btmLookup k l = some v →
      countKey k l = 1 := by
  intro l
  induction l with
  | nil => intro _ h; simp [btmLookup] at h
  | cons p rest ih =>
    obtain ⟨k', v'⟩ := p
    intro hs h
    rw [sortedKeys, List.pairwise_cons] at hs
    obtain ⟨hhead, htail⟩ := hs
    by_cases hk : k = k'
    · subst hk
      have h0 : countKey k rest = 0 :=
        countKey_eq_zero fun q hq => ne_of_gt (hhead q hq)
      simp only [countKey] at h0 ⊢
      simp [List.filter_cons, h0]
    · rw [btmLookup, if_neg hk] at h
      simp only [countKey, List.filter_cons, decide_eq_true_eq]
      rw [if_neg (fun hc : k' = k => hk hc.symm)]
      exact ih htail h

theorem btmInsert_append {κ α : Type} [LinearOrder κ] {k : κ} (v : α) :
    ∀ {l : List (κ × α)}, (∀ p ∈ l, p.1 < k) → btmInsert k v l = l ++ [(k, v)] := by
  intro l
  induction l with
  | nil => intro _; rfl
  | cons p rest ih =>
    obtain ⟨k', v'⟩ := p
    intro h
    have hk' : k' < k := h (k', v') (List.mem_cons_self _ _)
    simp only [btmInsert, if_neg (not_lt.mpr hk'.le), if_neg (ne_of_gt hk'),
      List.cons_append]
    rw [ih fun q hq => h q (List.mem_cons_of_mem _ hq)]

theorem insertSeq_zero {α : Type} (s : Int) (f : Int → α) (m0 : List (Int × α)) :
    insertSeq s f 0 m0 = m0 := rfl

theorem insertSeq_succ {α : Type} (s : Int) (f : Int → α) (n : Nat)
    (m0 : List (Int × α)) :
    insertSeq s f (n + 1) m0 =
      btmInsert (s + ((n : Int) + 1)) (f ((n : Int) + 1)) (insertSeq s f n m0) := by
  simp [insertSeq, List.range_succ]

theorem insertSeq_lookup_hit {α : Type} (s : Int) (f : Int → α)
    (m0 : List (Int × α)) (n : Nat) (d : Int) (h1 : 1 ≤ d) (h2 : d ≤ (n : Int)) :
    btmLookup (s + d) (insertSeq s f n m0) = some (f d) := by
  induction n with
  | zero => omega
  | succ n ih =>
    rw [insertSeq_succ]
    by_cases hd : d = (n : Int) + 1
    · rw [hd, btmLookup_insert_self]
    · have hne : s + d ≠ s + ((n : Int) + 1) := by omega
      rw [btmLookup_insert_of_ne _ _ hne, ih (by omega)]

theorem insertSeq_lookup_miss {α : Type} (s : Int) (f : Int → α)
    (m0 : List (Int × α)) (n : Nat) (k : Int)
    (h : ∀ d : Int, 1 ≤ d → d ≤ (n : Int) → k ≠ s + d) :
    btmLookup k (insertSeq s f n m0) = btmLookup k m0 := by
  induction n with
  | zero => rfl
  | succ n ih =>
    rw [insertSeq_succ]
    have hne : k ≠ s + ((n : Int) + 1) := h _ (by omega) (by omega)
    rw [btmLookup_insert_of_ne _ _ hne]
    exact ih fun d hd1 hd2 => h d hd1 (by omega)

theorem insertSeq_sorted {α : Type} (s : Int) (f : Int → α) (n : Nat)
    {m0 : List (Int × α)} (hs : sortedKeys m0) :
    sortedKeys (insertSeq s f n m0) := by
  induction n with
  | zero => exact hs
  | succ n ih =>
    rw [insertSeq_succ]
    exact sortedKeys_insert _ _ ih

theorem insertSeq_eq_map {α : Type} (s : Int) (f : Int → α) (n : Nat) :
    insertSeq s f n [] =
      (List.range n).map
        (fun (i : Nat) => (s + ((i : Int) + 1), f ((i : Int) + 1))) := by
  induction n with
  | zero => rfl
  | succ n ih =>
    rw [insertSeq_succ, ih, List.range_succ, List.map_append]
    rw [btmInsert_append]
    · rfl
    · intro p hp
      simp only [List.mem_map, List.mem_range] at hp
      obtain ⟨i, hi, rfl⟩ := hp
      show s + ((i : Int) + 1) < s + ((n : Int) + 1)
      omega

theorem insertSeq_fix {α : Type} (s : Int) (f : Int → α) (n : Nat)
    {m : List (Int × α)} (hs : sortedKeys m)
    (hmem : ∀ d : Int, 1 ≤ d → d ≤ (n : Int) → (s + d, f d) ∈ m) :
    insertSeq s f n m = m := by
  induction n with
  | zero => rfl
  | succ n ih =>
    rw [insertSeq_succ, ih fun d hd1 hd2 => hmem d hd1 (by omega)]
    exact btmInsert_of_mem hs (hmem _ (by omega) (by omega))

theorem insertSeq_idem {α : Type} (s : Int) (f : Int → α) (n : Nat)
    {m0 : List (Int × α)} (hs : sortedKeys m0) :
    insertSeq s f n (insertSeq s f n m0) = insertSeq s f n m0 := by
  refine insertSeq_fix s f n (insertSeq_sorted s f n hs) ?_
  intro d hd1 hd2
  exact btmLookup_mem (insertSeq_lookup_hit s f m0 n d hd1 hd2)

theorem calculate_interest_daily_eq (l : Loan) :
    (calculate_interest l).daily_information =
      insertSeq l.start_date (dailyOf l) (l.end_date - l.start_date).toNat
        l.daily_information := rfl

theorem calculate_interest_start (l : Loan) :
    (calculate_interest l).start_date = l.start_date := rfl

theorem calculate_interest_end (l : Loan) :
    (calculate_interest l).end_date = l.end_date := rfl

/-- Claim C2: for a loan with `end_date >= start_date`, every day offset
`d` in `1..days` has exactly one accrual entry, keyed `start_date + d`,
holding the per-day amounts with and without margin and
`days_elapsed = d`.  The `sortedKeys` hypothesis is the representation
invariant every real `BTreeMap` satisfies. -/
theorem calculate_interest_daily_entries (l : Loan) (d : Int)
    (hs : sortedKeys l.daily_information)
    (hle : l.start_date ≤ l.end_date)
    (h1 : 1 ≤ d) (h2 : d ≤ l.end_date - l.start_date) :
    btmLookup (l.start_date + d) (calculate_interest l).daily_information =
      some { day_interest :=
               l.loan_amount * ((l.base_interest_rate + l.margin) / 365)
             day_interest_no_margin := l.loan_amount * (l.base_interest_rate / 365)
             days_elapsed := d } ∧
    countKey (l.start_date + d) (calculate_interest l).daily_information = 1 := by
  have hlk : btmLookup (l.start_date + d) (calculate_interest l).daily_information =
      some (dailyOf l d) := by
    rw [calculate_interest_daily_eq]
    exact insertSeq_lookup_hit _ _ _ _ d h1 (by omega)
  refine ⟨hlk, ?_⟩
  rw [calculate_interest_daily_eq] at hlk ⊢
  exact countKey_eq_one (insertSeq_sorted _ _ _ hs) hlk

/-- Witness for C2 on a concrete four-day loan at day offset 2. -/
theorem calculate_interest_daily_entries_witness :
    (sortedKeys exLoanFourDays.daily_information ∧
      exLoanFourDays.start_date ≤ exLoanFourDays.end_date ∧
      (1 : Int) ≤ 2 ∧ (2 : Int) ≤ exLoanFourDays.end_date - exLoanFourDays.start_date) ∧
    (btmLookup (exLoanFourDays.start_date + 2)
        (calculate_interest exLoanFourDays).daily_information =
      some { day_interest :=
               exLoanFourDays.loan_amount *
                 ((exLoanFourDays.base_interest_rate + exLoanFourDays.margin) / 365)
             day_interest_no_margin :=
               exLoanFourDays.loan_amount * (exLoanFourDays.base_interest_rate / 365)
             days_elapsed := 2 } ∧
    countKey (exLoanFourDays.start_date + 2)
        (calculate_interest exLoanFourDays).daily_information = 1) :=
  ⟨⟨by simp [sortedKeys, exLoanFourDays], by decide, by decide, by decide⟩,
   calculate_interest_daily_entries exLoanFourDays 2
     (by simp [sortedKeys, exLoanFourDays]) (by decide) (by decide) (by decide)⟩

/-- Counterexample to C3 as stated: on a loan whose map still holds a
stale entry, `calculate_interest` with `end_date = start_date` leaves the
entry in place, so the map size is 1, not `max(0, days) = 0` — the
function never clears the map. -/
theorem calculate_interest_len_counterexample :
    (calculate_interest exLoanStale).daily_information.length ≠
      (max 0 (exLoanStale.end_date - exLoanStale.start_date)).toNat ∧
    exLoanStale.end_date = exLoanStale.start_date ∧
    (calculate_interest exLoanStale).daily_information ≠ [] ∧
    (calculate_interest exLoanStale).total_interest = 0 := by
  refine ⟨by decide, by decide, by decide, ?_⟩
  have hz : exLoanStale.end_date - exLoanStale.start_date = 0 := by decide
  simp [calculate_interest, hz]

/-- Amended C3: for every loan whose daily accrual map is empty before
the call (as in every call site of the program, which reset it first),
the map afterwards has `max(0, days)` entries, and a zero-length range
gives an empty map and zero total interest. -/
theorem calculate_interest_len_of_empty (l : Loan)
    (h : l.daily_information = []) :
    (calculate_interest l).daily_information.length =
      (max 0 (l.end_date - l.start_date)).toNat ∧
    (l.end_date = l.start_date →
      (calculate_interest l).daily_information = [] ∧
      (calculate_interest l).total_interest = 0) := by
  constructor
  · rw [calculate_interest_daily_eq, h, insertSeq_eq_map, List.length_map,
      List.length_range]
    omega
  · intro he
    have h0 : (l.end_date - l.start_date).toNat = 0 := by omega
    have hz : l.end_date - l.start_date = 0 := by omega
    constructor
    · rw [calculate_interest_daily_eq, h, h0]
      rfl
    · simp [calculate_interest, hz]

/-- Witness for the amended C3 on a concrete zero-length loan. -/
theorem calculate_interest_len_of_empty_witness :
    exLoanZeroLen.daily_information = [] ∧
    ((calculate_interest exLoanZeroLen).daily_information.length =
      (max 0 (exLoanZeroLen.end_date - exLoanZeroLen.start_date)).toNat ∧
    (exLoanZeroLen.end_date = exLoanZeroLen.start_date →
      (calculate_interest exLoanZeroLen).daily_information = [] ∧
      (calculate_interest exLoanZeroLen).total_interest = 0)) :=
  ⟨rfl, calculate_interest_len_of_empty exLoanZeroLen rfl⟩

/-- Counterexample to C4 as stated: on a two-day loan whose map holds a
stale entry at day 50 (outside the new range), the entry is still
observable after `calculate_interest` — the function inserts over the
range but never clears the map. -/
theorem calculate_interest_stale_counterexample :
    exLoanOutside.daily_information =
      [(50, { day_interest := 1, day_interest_no_margin := 2, days_elapsed := 3 })] ∧
    btmLookup 50 (calculate_interest exLoanOutside).daily_information =
      some { day_interest := 1, day_interest_no_margin := 2, days_elapsed := 3 } ∧
    (∀ d : Int, 1 ≤ d → d ≤ exLoanOutside.end_date - exLoanOutside.start_date →
      exLoanOutside.start_date + d ≠ 50) := by
  refine ⟨rfl, by decide, ?_⟩
  intro d h1 h2
  revert h1 h2
  show (1 : Int) ≤ d → d ≤ 2 - 0 → (0 : Int) + d ≠ 50
  omega

/-- Amended C4: `calculate_interest` fully replaces `total_interest` with
a function of the current parameters, and overwrites accrual entries in
the produced key range `start_date + 1 .. start_date + days`, but it does
not clear the map: at any key outside that range the previous binding is
still observable.  Full replacement of the derived state therefore holds
only when the map is empty before the call, which the program's call
sites ensure by resetting it. -/
theorem calculate_interest_replace_amended (l : Loan) (k : Int)
    (hout : ∀ d : Int, 1 ≤ d → d ≤ l.end_date - l.start_date →
      k ≠ l.start_date + d) :
    btmLookup k (calculate_interest l).daily_information =
      btmLookup k l.daily_information ∧
    (calculate_interest l).total_interest =
      l.loan_amount * (l.base_interest_rate + l.margin) / 365 *
        ((l.end_date - l.start_date : Int) : Rat) := by
  constructor
  · rw [calculate_interest_daily_eq]
    refine insertSeq_lookup_miss _ _ _ _ _ ?_
    intro d hd1 hd2
    exact hout d hd1 (by omega)
  · simp only [calculate_interest]
    ring

/-- Witness for the amended C4: the stale key 50 of `exLoanOutside` is
outside the produced range and its binding survives the call. -/
theorem calculate_interest_replace_amended_witness :
    (∀ d : Int, 1 ≤ d → d ≤ exLoanOutside.end_date - exLoanOutside.start_date →
      (50 : Int) ≠ exLoanOutside.start_date + d) ∧
    (btmLookup 50 (calculate_interest exLoanOutside).daily_information =
      btmLookup 50 exLoanOutside.daily_information ∧
    (calculate_interest exLoanOutside).total_interest =
      exLoanOutside.loan_amount *
        (exLoanOutside.base_interest_rate + exLoanOutside.margin) / 365 *
        ((exLoanOutside.end_date - exLoanOutside.start_date : Int) : Rat)) :=
  ⟨by intro d h1 h2; revert h1 h2;
      show (1 : Int) ≤ d → d ≤ 2 - 0 → (50 : Int) ≠ 0 + d; omega,
   calculate_interest_replace_amended exLoanOutside 50
     (by intro d h1 h2; revert h1 h2;
         show (1 : Int) ≤ d → d ≤ 2 - 0 → (50 : Int) ≠ 0 + d; omega)⟩

/-- Claim C5: with `end_date < start_date` the loop adds no accrual
entries, and the total is the direct product with a negative day count,
hence negative for positive principal and positive rates. -/
theorem calculate_interest_negative_days (l : Loan)
    (hneg : l.end_date < l.start_date) :
    (calculate_interest l).daily_information = l.daily_information ∧
    (calculate_interest l).total_interest =
      l.loan_amount * (l.base_interest_rate + l.margin) / 365 *
        ((l.end_date - l.start_date : Int) : Rat) ∧
    (0 < l.loan_amount → 0 < l.base_interest_rate → 0 < l.margin →
      (calculate_interest l).total_interest < 0) := by
  have h0 : (l.end_date - l.start_date).toNat = 0 := by omega
  refine ⟨?_, ?_, ?_⟩
  · rw [calculate_interest_daily_eq, h0]
    rfl
  · simp only [calculate_interest]
    ring
  · intro hA hB hM
    have hq : ((l.end_date - l.start_date : Int) : Rat) < 0 := by
      have : l.end_date - l.start_date < 0 := by omega
      exact_mod_cast this
    have hr : 0 < (l.base_interest_rate + l.margin) / 365 :=
      div_pos (by linarith) (by norm_num)
    show (calculate_interest l).total_interest < 0
    simp only [calculate_interest]
    calc l.loan_amount * ((l.base_interest_rate + l.margin) / 365) *
          ((l.end_date - l.start_date : Int) : Rat)
        < 0 := mul_neg_of_pos_of_neg (mul_pos hA hr) hq

/-- Witness for C5 on a concrete backwards-dated loan. -/
theorem calculate_interest_negative_days_witness :
    exLoanBackwards.end_date < exLoanBackwards.start_date ∧
    ((calculate_interest exLoanBackwards).daily_information =
      exLoanBackwards.daily_information ∧
    (calculate_interest exLoanBackwards).total_interest =
      exLoanBackwards.loan_amount *
        (exLoanBackwards.base_interest_rate + exLoanBackwards.margin) / 365 *
        ((exLoanBackwards.end_date - exLoanBackwards.start_date : Int) : Rat) ∧
    (0 < exLoanBackwards.loan_amount → 0 < exLoanBackwards.base_interest_rate →
      0 < exLoanBackwards.margin →
      (calculate_interest exLoanBackwards).total_interest < 0)) :=
  ⟨by decide, calculate_interest_negative_days exLoanBackwards (by decide)⟩

/-- Claim C10: `calculate_interest` is idempotent — a second run recomputes
the same total and re-inserts identical entries under the same keys, so
the loan is unchanged.  The `sortedKeys` hypothesis is the representation
invariant every real `BTreeMap` satisfies. -/
theorem calculate_interest_idempotent (l : Loan)
    (hs : sortedKeys l.daily_information) :
    calculate_interest (calculate_interest l) = calculate_interest l := by
  have hd : (calculate_interest (calculate_interest l)).daily_information =
      (calculate_interest l).daily_information := by
    rw [calculate_interest_daily_eq (calculate_interest l)]
    show insertSeq l.start_date (dailyOf l) (l.end_date - l.start_date).toNat
        ((calculate_interest l).daily_information) =
      (calculate_interest l).daily_information
    rw [calculate_interest_daily_eq l]
    exact insertSeq_idem _ _ _ hs
  exact Loan.ext rfl rfl rfl rfl rfl rfl rfl hd

/-- Witness for C10 on a concrete two-day loan with an empty (hence
sorted) accrual map. -/
theorem calculate_interest_idempotent_witness :
    sortedKeys exLoanTwoDays.daily_information ∧
    calculate_interest (calculate_interest exLoanTwoDays) =
      calculate_interest exLoanTwoDays :=
  ⟨by simp [sortedKeys, exLoanTwoDays],
   calculate_interest_idempotent exLoanTwoDays
     (by simp [sortedKeys, exLoanTwoDays])⟩

theorem btmLookup_adjust_self {κ α : Type} [DecidableEq κ] (k : κ) (f : α → α) :
    ∀ l : List (κ × α),
      btmLookup k (btmAdjust k f l) = Option.map f (btmLookup k l) := by
  intro l
  induction l with
  | nil => rfl
  | cons p rest ih =>
    obtain ⟨k', v⟩ := p
    by_cases hk : k = k'
    · simp [btmAdjust, btmLookup, hk]
    · simp [btmAdjust, btmLookup, hk, ih]

theorem btmContains_of_lookup {κ α : Type} [DecidableEq κ] {k : κ} {v : α}
    {l : List (κ × α)} (h : btmLookup k l = some v) :
    btmContains k l = true := by
  simp [btmContains, h]

/-- Claim C6: `update_loan` on an absent identifier reports the error and
leaves the registry (its loan list, hence what listing would print, and
`next_loan_id`) untouched; the same holds for the whole CLI update flow. -/
theorem update_loan_notfound_unchanged (c : LoanCalculator) (loan_id : Nat)
    (loan : Loan) (inp : LoanInput)
    (h : btmContains loan_id c.loans = false) :
    (c.update_loan loan_id loan).1 = c ∧
    (c.update_loan loan_id loan).2 = Except.error "Loan not found." ∧
    (update_loan_flow c loan_id inp).1 = c ∧
    (update_loan_flow c loan_id inp).2 = Except.error "Loan not found." := by
  have hl : btmLookup loan_id c.loans = (none : Option Loan) := by
    rw [btmContains] at h
    exact Option.not_isSome_iff_eq_none.mp (by simp [h])
  refine ⟨?_, ?_, ?_, ?_⟩ <;>
    simp [LoanCalculator.update_loan, update_loan_flow, h, hl]

/-- Witness for C6: updating identifier 1 in a fresh, empty registry. -/
theorem update_loan_notfound_unchanged_witness :
    btmContains 1 LoanCalculator.new.loans = false ∧
    ((LoanCalculator.new.update_loan 1 Loan.new).1 = LoanCalculator.new ∧
    (LoanCalculator.new.update_loan 1 Loan.new).2 =
      Except.error "Loan not found." ∧
    (update_loan_flow LoanCalculator.new 1 exInput).1 = LoanCalculator.new ∧
    (update_loan_flow LoanCalculator.new 1 exInput).2 =
      Except.error "Loan not found.") :=
  ⟨rfl, update_loan_notfound_unchanged LoanCalculator.new 1 Loan.new exInput rfl⟩

/-- Claim C7: updating a stored identifier through the CLI flow succeeds
and afterwards the stored loan is exactly `calculate_interest` applied to
a loan built from the new parameters alone, with derived fields starting
from zero/empty — nothing of the previous loan (parameters or derived
state) survives. -/
theorem update_loan_flow_replaces (c : LoanCalculator) (loan_id : Nat)
    (inp : LoanInput) (loan0 : Loan)
    (h : btmLookup loan_id c.loans = some loan0) :
    (update_loan_flow c loan_id inp).2 = Except.ok () ∧
    btmLookup loan_id (update_loan_flow c loan_id inp).1.loans =
      some (calculate_interest
        { start_date := inp.start_date
          end_date := inp.end_date
          loan_amount := inp.loan_amount
          loan_currency := inp.loan_currency
          base_interest_rate := inp.base_interest_rate_percent / 100
          margin := inp.margin_percent / 100
          total_interest := 0
          daily_information := [] }) := by
  have hc : btmContains loan_id c.loans = true := btmContains_of_lookup h
  constructor
  · simp [update_loan_flow, h, LoanCalculator.update_loan, hc]
  · simp only [update_loan_flow, h, LoanCalculator.update_loan, hc, if_true]
    rw [btmLookup_adjust_self, btmLookup_insert_self]
    rfl

/-- Witness for C7: replacing the single stored loan of `exCalculator`. -/
theorem update_loan_flow_replaces_witness :
    btmLookup 1 exCalculator.loans = some Loan.new ∧
    ((update_loan_flow exCalculator 1 exInput).2 = Except.ok () ∧
    btmLookup 1 (update_loan_flow exCalculator 1 exInput).1.loans =
      some (calculate_interest
        { start_date := exInput.start_date
          end_date := exInput.end_date
          loan_amount := exInput.loan_amount
          loan_currency := exInput.loan_currency
          base_interest_rate := exInput.base_interest_rate_percent / 100
          margin := exInput.margin_percent / 100
          total_interest := 0
          daily_information := [] })) :=
  ⟨rfl, update_loan_flow_replaces exCalculator 1 exInput Loan.new rfl⟩

theorem update_loan_next (c : LoanCalculator) (i : Nat) (l : Loan) :
    (c.update_loan i l).1.next_loan_id = c.next_loan_id := by
  rw [LoanCalculator.update_loan]
  split <;> rfl

theorem update_loan_flow_next (c : LoanCalculator) (i : Nat) (inp : LoanInput) :
    (update_loan_flow c i inp).1.next_loan_id = c.next_loan_id := by
  by_cases hc : btmContains i c.loans
  · cases hl : btmLookup i c.loans with
    | none => simp [update_loan_flow, hl]
    | some loan0 => simp [update_loan_flow, hl, LoanCalculator.update_loan, hc]
  · cases hl : btmLookup i c.loans with
    | none => simp [update_loan_flow, hl]
    | some loan0 => exact absurd (btmContains_of_lookup hl) hc

theorem add_loan_flow_next (c : LoanCalculator) (l : Loan) :
    (add_loan_flow c l).1.next_loan_id = c.next_loan_id + 1 := rfl

theorem runOps_ids (ops : List RegOp) :
    ∀ c : LoanCalculator,
      (runOps c ops).2 = List.range' c.next_loan_id (countAdds ops) ∧
      (runOps c ops).1.next_loan_id = c.next_loan_id + countAdds ops := by
  induction ops with
  | nil => intro c; exact ⟨rfl, rfl⟩
  | cons op rest ih =>
    intro c
    cases op with
    | addOp loan =>
      obtain ⟨ht, hn⟩ := ih (add_loan_flow c loan).1
      constructor
      · simp only [runOps, applyOp, countAdds]
        rw [ht, add_loan_flow_next, List.range'_succ]
        rfl
      · simp only [runOps, applyOp, countAdds]
        rw [hn, add_loan_flow_next]
        omega
    | updateOp i loan =>
      obtain ⟨ht, hn⟩ := ih (c.update_loan i loan).1
      constructor
      · simp only [runOps, applyOp, countAdds]
        rw [ht, update_loan_next]
        exact List.nil_append _
      · simp only [runOps, applyOp, countAdds]
        rw [hn, update_loan_next]
    | updateFlowOp i inp =>
      obtain ⟨ht, hn⟩ := ih (update_loan_flow c i inp).1
      constructor
      · simp only [runOps, applyOp, countAdds]
        rw [ht, update_loan_flow_next]
        exact List.nil_append _
      · simp only [runOps, applyOp, countAdds]
        rw [hn, update_loan_flow_next]
    | getOp i =>
      obtain ⟨ht, hn⟩ := ih c
      constructor
      · simp only [runOps, applyOp, countAdds]
        rw [ht]
        exact List.nil_append _
      · simp only [runOps, applyOp, countAdds]
        rw [hn]
    | listOp =>
      obtain ⟨ht, hn⟩ := ih c
      constructor
      · simp only [runOps, applyOp, countAdds]
        rw [ht]
        exact List.nil_append _
      · simp only [runOps, applyOp, countAdds]
        rw [hn]

/-- Claim C8: over any operation sequence on a fresh registry, the
identifiers returned by creations are exactly 1, 2, 3, … in order — so
they start at 1, strictly increase, and are never reused — and
`next_loan_id` advances by exactly one per creation. -/
theorem add_loan_ids_strictly_increasing (ops : List RegOp) :
    (runOps LoanCalculator.new ops).2 = List.range' 1 (countAdds ops) ∧
    List.Pairwise (fun a b => a < b) (runOps LoanCalculator.new ops).2 ∧
    (runOps LoanCalculator.new ops).1.next_loan_id = 1 + countAdds ops := by
  obtain ⟨ht, hn⟩ := runOps_ids ops LoanCalculator.new
  refine ⟨ht, ?_, hn⟩
  rw [ht]
  exact List.pairwise_lt_range' 1 (countAdds ops)
